import Mathlib

/-!
Verification development for the boukiane repository (a browser front end
composing prompts for an external image-generation API).

The shallow embedding below translates, from the TypeScript sources:

* `src/App.tsx` — the prompt-generator effect (clause assembly), the
  history load/save effects, and `handleAddToHistory`;
* `src/components/ImageEditor.tsx` — `parseAspectRatio` and the geometry of
  `handleApply` (pad-to-aspect-ratio);
* `src/components/ImageUploader.tsx` — the geometry and output-MIME
  selection of `resizeImage` (resize-to-longest-side).

JavaScript numbers are idealised as rationals extended with NaN and signed
infinities (`JsNumber`); exact rational arithmetic stands in for IEEE-754
doubles, and `Math.round` is floor of x + 1/2, which agrees with JavaScript
on every finite argument.  Rational values are constructed through
`Rat.divInt` on integer numerators and denominators so that every definition
evaluates by kernel reduction; the `ratAdd_eq`-style bridge lemmas relate
these constructions to the ordinary field operations for symbolic proofs.
String primitives used by the code (`trim`, `split(':')`, `startsWith`,
`Array.join`) are re-implemented over `List Char`; the ASCII whitespace set
of `Char.isWhitespace` stands in for the Unicode set.
-/

namespace Boukiane

/-- Result of a character-by-character prefix test over the underlying
character lists: the model of JavaScript `String.startsWith`, also used to
state that a composed prompt part does or does not begin with a given
marker. -/
def leadsWith : List Char → List Char → Bool
  | [], _ => true
  | _ :: _, [] => false
  | a :: as, b :: bs => a == b && leadsWith as bs

/-- Whole-list prefix: a list always leads any extension of itself. -/
theorem leadsWith_append_self (p r : List Char) : leadsWith p (p ++ r) = true := by
  induction p with
  | nil => rfl
  | cons a as ih => simp [leadsWith, ih]

/-- When the prefix test already fails against the first block of a
concatenation (restricted to that block's length), it fails against the whole
concatenation. -/
theorem leadsWith_append_false (p l r : List Char)
    (h : leadsWith (p.take l.length) l = false) :
    leadsWith p (l ++ r) = false := by
  induction l generalizing p with
  | nil =>
    simp [leadsWith] at h
  | cons b bs ih =>
    cases p with
    | nil => simp [leadsWith] at h
    | cons a as =>
      simp only [List.length_cons, List.take_succ_cons, leadsWith,
        List.cons_append] at h ⊢
      cases hab : (a == b) with
      | false => simp [hab]
      | true =>
        simp only [hab, Bool.true_and] at h ⊢
        exact ih as h

/-- Rational addition built from integer arithmetic and `Rat.divInt`, so
that it evaluates by kernel reduction on concrete inputs. -/
def ratAdd (a b : ℚ) : ℚ := Rat.divInt (a.num * b.den + b.num * a.den) (a.den * b.den)

/-- Rational subtraction built from integer arithmetic and `Rat.divInt`. -/
def ratSub (a b : ℚ) : ℚ := Rat.divInt (a.num * b.den - b.num * a.den) (a.den * b.den)

/-- Rational multiplication built from integer arithmetic and `Rat.divInt`. -/
def ratMul (a b : ℚ) : ℚ := Rat.divInt (a.num * b.num) (a.den * b.den)

/-- Rational division built from integer arithmetic and `Rat.divInt`. -/
def ratDiv (a b : ℚ) : ℚ := Rat.divInt (a.num * b.den) (a.den * b.num)

/-- Numerator of a rational, as a product with its denominator. -/
theorem num_eq_mul_den (a : ℚ) : (a.num : ℚ) = a * (a.den : ℚ) := by
  have ha : ((a.den : ℚ)) ≠ 0 := Nat.cast_ne_zero.mpr a.den_nz
  exact (div_eq_iff ha).mp (Rat.num_div_den a)

/-- The divInt-based addition agrees with field addition. -/
theorem ratAdd_eq (a b : ℚ) : ratAdd a b = a + b := by
  have ha : ((a.den : ℚ)) ≠ 0 := Nat.cast_ne_zero.mpr a.den_nz
  have hb : ((b.den : ℚ)) ≠ 0 := Nat.cast_ne_zero.mpr b.den_nz
  rw [ratAdd, Rat.divInt_eq_div]
  push_cast
  field_simp
  rw [num_eq_mul_den a, num_eq_mul_den b]
  ring

/-- The divInt-based subtraction agrees with field subtraction. -/
theorem ratSub_eq (a b : ℚ) : ratSub a b = a - b := by
  have ha : ((a.den : ℚ)) ≠ 0 := Nat.cast_ne_zero.mpr a.den_nz
  have hb : ((b.den : ℚ)) ≠ 0 := Nat.cast_ne_zero.mpr b.den_nz
  rw [ratSub, Rat.divInt_eq_div]
  push_cast
  field_simp
  rw [num_eq_mul_den a, num_eq_mul_den b]
  ring

/-- The divInt-based multiplication agrees with field multiplication. -/
theorem ratMul_eq (a b : ℚ) : ratMul a b = a * b := by
  have ha : ((a.den : ℚ)) ≠ 0 := Nat.cast_ne_zero.mpr a.den_nz
  have hb : ((b.den : ℚ)) ≠ 0 := Nat.cast_ne_zero.mpr b.den_nz
  rw [ratMul, Rat.divInt_eq_div]
  push_cast
  field_simp
  rw [num_eq_mul_den a, num_eq_mul_den b]
  ring

/-- The divInt-based division agrees with field division. -/
theorem ratDiv_eq (a b : ℚ) : ratDiv a b = a / b := by
  have ha : ((a.den : ℚ)) ≠ 0 := Nat.cast_ne_zero.mpr a.den_nz
  have hb : ((b.den : ℚ)) ≠ 0 := Nat.cast_ne_zero.mpr b.den_nz
  rcases eq_or_ne b 0 with hb0 | hb0
  · subst hb0
    simp [ratDiv, Rat.divInt_eq_div]
  · have hbn : (b.num : ℚ) ≠ 0 := by
      exact_mod_cast Rat.num_ne_zero.mpr hb0
    rw [ratDiv, Rat.divInt_eq_div]
    push_cast
    field_simp
    rw [num_eq_mul_den a, num_eq_mul_den b]
    ring

/-- Model of JavaScript `Math.round`: floor of x + 1/2 (computed through
`Rat.divInt` so that it evaluates by kernel reduction), which matches the
round-half-toward-positive-infinity behaviour on every finite argument. -/
def jsRound (q : ℚ) : ℤ := Rat.floor (Rat.divInt (2 * q.num + (q.den : ℤ)) (2 * (q.den : ℤ)))

/-- The rounding model is floor of x + 1/2. -/
theorem jsRound_eq (q : ℚ) : jsRound q = ⌊q + 1 / 2⌋ := by
  have hq : ((q.den : ℚ)) ≠ 0 := Nat.cast_ne_zero.mpr q.den_nz
  have : Rat.divInt (2 * q.num + (q.den : ℤ)) (2 * (q.den : ℤ)) = q + 1 / 2 := by
    rw [Rat.divInt_eq_div]
    push_cast
    field_simp
    rw [num_eq_mul_den q]
    ring
  rw [jsRound, this]
  rfl

/-- Rounding an integer-valued rational is the identity. -/
theorem jsRound_intCast (n : ℤ) : jsRound ((n : ℚ)) = n := by
  rw [jsRound_eq, add_comm, Int.floor_add_int]
  norm_num

/-- Rounding a natural-valued rational is the identity. -/
theorem jsRound_natCast (n : ℕ) : jsRound ((n : ℚ)) = (n : ℤ) := by
  have := jsRound_intCast (n : ℤ)
  simpa using this

/-- JavaScript numbers, idealised: rationals plus NaN and the two
infinities. -/
inductive JsNumber : Type where
  | nan : JsNumber
  | posInf : JsNumber
  | negInf : JsNumber
  | fin : ℚ → JsNumber
deriving DecidableEq

/-- JavaScript division on our idealised numbers (the sign of zero is not
modelled; it does not affect any claim considered here). -/
def jsDiv : JsNumber → JsNumber → JsNumber
  | JsNumber.nan, _ => JsNumber.nan
  | _, JsNumber.nan => JsNumber.nan
  | JsNumber.posInf, JsNumber.posInf => JsNumber.nan
  | JsNumber.posInf, JsNumber.negInf => JsNumber.nan
  | JsNumber.negInf, JsNumber.posInf => JsNumber.nan
  | JsNumber.negInf, JsNumber.negInf => JsNumber.nan
  | JsNumber.posInf, JsNumber.fin b => if 0 ≤ b then JsNumber.posInf else JsNumber.negInf
  | JsNumber.negInf, JsNumber.fin b => if 0 ≤ b then JsNumber.negInf else JsNumber.posInf
  | JsNumber.fin _, JsNumber.posInf => JsNumber.fin 0
  | JsNumber.fin _, JsNumber.negInf => JsNumber.fin 0
  | JsNumber.fin a, JsNumber.fin b =>
    if b = 0 then
      (if a = 0 then JsNumber.nan else if 0 < a then JsNumber.posInf else JsNumber.negInf)
    else JsNumber.fin (ratDiv a b)

/-- Model of JavaScript `String.prototype.split` with a single-character
separator, over the character list. -/
def splitCh (sep : Char) : List Char → List (List Char)
  | [] => [[]]
  | c :: cs =>
    match splitCh sep cs with
    | [] => if c = sep then [[], []] else [[c]]
    | p :: ps => if c = sep then [] :: p :: ps else (c :: p) :: ps

/-- Numeric value of a digit run (most significant first). -/
def digitsToNat (l : List Char) : ℕ :=
  l.foldl (fun acc c => 10 * acc + (c.toNat - 48)) 0

/-- Model of JavaScript `parseFloat` on a character list: skip leading
whitespace, read an optional sign, then either `Infinity` or the longest
prefix of the form `digits[.digits][e|E[sign]digits]`; NaN when no digit is
found.  The value is assembled as a single exact quotient of integers. -/
def jsParseFloat (input : List Char) : JsNumber :=
  let l0 := input.dropWhile Char.isWhitespace
  let sgn : ℤ := match l0 with
    | '-' :: _ => -1
    | _ => 1
  let l1 : List Char := match l0 with
    | '-' :: rest => rest
    | '+' :: rest => rest
    | _ => l0
  if leadsWith (String.data ("Infinity")) l1 then
    (if sgn = 1 then JsNumber.posInf else JsNumber.negInf)
  else
    let ds := l1.takeWhile Char.isDigit
    let rest := l1.dropWhile Char.isDigit
    let fs : List Char := match rest with
      | '.' :: r => r.takeWhile Char.isDigit
      | _ => []
    let rest2 : List Char := match rest with
      | '.' :: r => r.dropWhile Char.isDigit
      | _ => rest
    if ds = [] ∧ fs = [] then JsNumber.nan
    else
      let e : ℤ := match rest2 with
        | c :: r =>
          if c = 'e' ∨ c = 'E' then
            match r with
            | '-' :: r2 =>
              (if r2.takeWhile Char.isDigit = [] then 0
               else -(digitsToNat (r2.takeWhile Char.isDigit) : ℤ))
            | '+' :: r2 =>
              (if r2.takeWhile Char.isDigit = [] then 0
               else (digitsToNat (r2.takeWhile Char.isDigit) : ℤ))
            | _ =>
              (if r.takeWhile Char.isDigit = [] then 0
               else (digitsToNat (r.takeWhile Char.isDigit) : ℤ))
          else 0
        | [] => 0
      let mantNum : ℤ := (digitsToNat ds : ℤ) * 10 ^ fs.length + (digitsToNat fs : ℤ)
      let num : ℤ := sgn * mantNum * (if 0 ≤ e then 10 ^ e.toNat else 1)
      let den : ℤ := 10 ^ fs.length * (if 0 ≤ e then 1 else 10 ^ (-e).toNat)
      JsNumber.fin (Rat.divInt num den)

/-- Embedding of `parseAspectRatio` (src/components/ImageEditor.tsx, lines
16–27): split on `:`; if the part count is not two, fall back to 16/9;
otherwise parse both parts with `parseFloat`, fall back to 16/9 when the
denominator equals zero (NaN never equals zero, as in JavaScript), and
divide.  The source's try/catch is dead code because `parseFloat` never
throws, so the embedding is a total function. -/
def parseAspectRatio (ratioStr : String) : JsNumber :=
  let parts := splitCh ':' ratioStr.data
  if parts.length ≠ 2 then JsNumber.fin (Rat.divInt 16 9)
  else
    let num := jsParseFloat (parts.headD [])
    let den := jsParseFloat ((parts.drop 1).headD [])
    if den = JsNumber.fin 0 then JsNumber.fin (Rat.divInt 16 9) else jsDiv num den

/-- The fallback value used by `parseAspectRatio` is the rational 16/9. -/
theorem fallback_ratio_eq : Rat.divInt 16 9 = (16 / 9 : ℚ) := by
  rw [Rat.divInt_eq_div]
  norm_num

/-- Model of JavaScript `String.prototype.trim`: drop whitespace from both
ends (ASCII whitespace standing in for the Unicode set). -/
def jsTrim (s : String) : String :=
  String.mk (((s.data.dropWhile Char.isWhitespace).reverse.dropWhile Char.isWhitespace).reverse)

/-- Model of JavaScript `Array.prototype.join` with a separator string. -/
def joinParts (sep : String) : List String → String
  | [] => ""
  | [x] => x
  | x :: y :: xs => x ++ sep ++ joinParts sep (y :: xs)

/-- Value object decoded from a data URL (`ImageFile` in src/types). -/
structure ImageFile : Type where
  base64 : String
  mimeType : String
deriving DecidableEq

/-- A character or object entry (`Character` in src/types): id, display
name, optional reference image. -/
structure Character : Type where
  id : ℤ
  name : String
  image : Option ImageFile
deriving DecidableEq

/-- A persisted history record (`HistoryItem` in src/types). -/
structure HistoryItem : Type where
  id : String
  image : ImageFile
  prompt : String
  createdAt : String
deriving DecidableEq

/-- The slice of App state read by the prompt-generator effect
(src/App.tsx, lines 144–198). -/
structure SceneState : Type where
  characters : List Character
  additionalElements : List Character
  sceneDescription : String
  sceneLocationImage : Option ImageFile
  styleImage : Option ImageFile
  aspectRatio : String
  artisticStyle : String
  lightingStyle : String
  cameraPerspective : String
deriving DecidableEq

/-- Embedding of the `characterNames` / `elementNames` computation in the
prompt-generator effect (src/App.tsx, lines 148–156; the same expression is
written out twice in the source, once per list): keep entries with a
non-null image and a non-blank trimmed name, wrap each trimmed name in
parentheses, and join with a comma and space. -/
def characterNames (cs : List Character) : String :=
  joinParts (", ")
    ((cs.filter (fun c => c.image.isSome && (jsTrim c.name != ""))).map
      (fun c => "(" ++ jsTrim c.name ++ ")"))

/-- Embedding of the `hasCharacterImage` / `hasElementImage` derived state
(src/App.tsx, lines 108–109): some entry has a non-null image. -/
def hasCharacterImage (cs : List Character) : Bool :=
  cs.any (fun c => c.image.isSome)

/-- The scene-description clause push (src/App.tsx, lines 163–166): the
source tests JavaScript truthiness of the raw description string, so the
clause is skipped exactly when the description is the empty string. -/
def scenePart (d : String) : List String :=
  if d = "" then [] else ["The scene is: " ++ d ++ "."]

/-- The character-integration sub-clause (src/App.tsx, line 172). -/
def characterIntegration (s : SceneState) : String :=
  if characterNames s.characters = "" then ""
  else "Integrate the characters " ++ characterNames s.characters ++ " from their reference images."

/-- The object-integration sub-clause (src/App.tsx, line 173). -/
def elementIntegration (s : SceneState) : String :=
  if characterNames s.additionalElements = "" then ""
  else "Integrate the objects " ++ characterNames s.additionalElements ++ " from their reference images."

/-- The location sub-clause (src/App.tsx, line 174). -/
def locationIntegration (s : SceneState) : String :=
  if s.sceneLocationImage.isSome then
    "Use the provided \"Scene Location\" image as the background environment."
  else ""

/-- The joined integration instructions (src/App.tsx, line 176): drop the
empty sub-clauses and join the rest with single spaces. -/
def integrationInstructions (s : SceneState) : String :=
  joinParts (" ")
    (([characterIntegration s, elementIntegration s, locationIntegration s]).filter
      (fun p => p != ""))

/-- The fixed style-reference clause (src/App.tsx, line 183). -/
def styleClause : String :=
  "Use the \"Style Reference\" image to influence the overall visual style and color palette."

/-- The fixed transparency-instruction clause (src/App.tsx, line 190). -/
def criticalClause : String :=
  "CRITICAL INSTRUCTION: For any reference images with transparent padding, you must fill these transparent areas by extending the generated scene into them. The final image must be a complete, seamless scene from edge to edge. DO NOT render black bars, borders, letterboxing, or pillarboxing. The subjects from the reference images must be perfectly and naturally integrated into the new environment."

/-- Embedding of the `promptParts` array assembled by the prompt-generator
effect (src/App.tsx, lines 158–193), in push order: lead/style clause,
optional scene description, composition, lighting, optional integration
instructions, optional style reference, optional transparency
instruction. -/
def promptParts (s : SceneState) : List String :=
  ["Generate a cinematic image in a " ++ s.artisticStyle ++ " style."]
    ++ scenePart s.sceneDescription
    ++ ["Use a " ++ s.cameraPerspective ++ " with a " ++ s.aspectRatio ++ " aspect ratio."]
    ++ ["The lighting is " ++ s.lightingStyle ++ "."]
    ++ (if integrationInstructions s = "" then [] else [integrationInstructions s])
    ++ (if s.styleImage.isSome then [styleClause] else [])
    ++ (if hasCharacterImage s.characters || hasCharacterImage s.additionalElements then
          [criticalClause]
        else [])

/-- Embedding of the final prompt string (src/App.tsx, line 195): filter
truthy (non-empty) parts and join with single spaces. -/
def composePrompt (s : SceneState) : String :=
  joinParts (" ") ((promptParts s).filter (fun p => p != ""))

/-- History cap (src/App.tsx, line 59). -/
def MAX_HISTORY_ITEMS : ℕ := 10

/-- Longest side used when shrinking an image before it is stored in the
history (src/App.tsx, line 60). -/
def HISTORY_IMAGE_SIZE : ℕ := 512

/-- Outcome of `JSON.parse` on the stored history payload: either a JSON
array (whose elements the source casts, unchecked, to `HistoryItem`) or any
other valid JSON value. -/
inductive ParsedJson : Type where
  | arr : List HistoryItem → ParsedJson
  | nonArray : ParsedJson
deriving DecidableEq

/-- Embedding of the load-history effect (src/App.tsx, lines 115–129).  The
input is the stored payload: `none` when no (or an empty) value is stored,
`some none` when the stored string is not valid JSON (`JSON.parse` throws,
landing in the catch block), `some (some v)` when it parses.  The result is
the in-memory history set by the effect together with whether the effect
itself removed the stored key (which happens only in the catch block). -/
def loadHistoryEffect : Option (Option ParsedJson) → List HistoryItem × Bool
  | none => ([], false)
  | some none => ([], true)
  | some (some ParsedJson.nonArray) => ([], false)
  | some (some (ParsedJson.arr l)) => (l.take MAX_HISTORY_ITEMS, false)

/-- Combined mount behaviour of the load effect (src/App.tsx, lines
115–129) and the save effect (src/App.tsx, lines 132–143).  Both effects
run once after mount, in declaration order: the load effect computes the
history above; the save effect then runs with the current history and
either writes it back (`setItem`, when non-empty) or removes the key
(`removeItem`, when empty) — in particular a corrupt payload always ends
with the key removed, either by the load effect's catch block or by the
save effect seeing an empty list.  The second component is the final stored
payload, idealised as the parsed list it would contain. -/
def mountStartup (stored : Option (Option ParsedJson)) :
    List HistoryItem × Option (List HistoryItem) :=
  let hist := (loadHistoryEffect stored).1
  (hist, if hist.length > 0 then some hist else none)

/-- Embedding of the state update in `handleAddToHistory` (src/App.tsx,
lines 201–214): prepend the new item and truncate to the cap.  The item is
built from the already-resized image; the resize step itself is the
geometry modelled by `resizeDims`. -/
def addToHistory (item : HistoryItem) (prev : List HistoryItem) : List HistoryItem :=
  (item :: prev).take MAX_HISTORY_ITEMS

/-- Lexicographic order on character lists, the order JavaScript uses to
compare strings; on equal-format ISO-8601 timestamps it coincides with
chronological order. -/
def lexLe : List Char → List Char → Bool
  | [], _ => true
  | _ :: _, [] => false
  | a :: as, b :: bs => if a < b then true else if a = b then lexLe as bs else false

/-- The lexicographic order is reflexive. -/
theorem lexLe_refl (l : List Char) : lexLe l l = true := by
  induction l with
  | nil => rfl
  | cons a as ih => simp [lexLe, ih]

/-- Canvas geometry computed by `handleApply` in the image editor
(src/components/ImageEditor.tsx, lines 60–88): the rounded canvas
dimensions and the (possibly fractional) centering offsets passed to
`drawImage`. -/
structure PadPlan : Type where
  canvasW : ℤ
  canvasH : ℤ
  xOff : ℚ
  yOff : ℚ
deriving DecidableEq

/-- Embedding of the geometry of `handleApply` (src/components/
ImageEditor.tsx, lines 60–88) for a source of natural size w × h and a
finite target ratio r: if the source aspect ratio exceeds the target, keep
the width and grow the height, else keep the height and grow the width;
round both; centre the source. -/
def padPlan (w h : ℕ) (r : ℚ) : PadPlan :=
  let oar : ℚ := ratDiv ((w : ℚ)) ((h : ℚ))
  let newW : ℚ := if oar > r then ((w : ℚ)) else ratMul ((h : ℚ)) r
  let newH : ℚ := if oar > r then ratDiv ((w : ℚ)) r else ((h : ℚ))
  let cw := jsRound newW
  let ch := jsRound newH
  { canvasW := cw, canvasH := ch,
    xOff := Rat.divInt (cw - (w : ℤ)) 2,
    yOff := Rat.divInt (ch - (h : ℤ)) 2 }

/-- Pixel-level reading of the padded canvas: the default canvas state is
transparent and `drawImage` paints the source only inside the centred
w × h rectangle (src/components/ImageEditor.tsx, lines 79–84, including the
comment that the canvas is deliberately not filled).  `none` is a
transparent pixel; inside the drawn rectangle the pixel comes from the
source, addressed in source coordinates. -/
def padPixel {α : Type} (w h : ℕ) (r : ℚ) (src : ℚ → ℚ → Option α) (x y : ℚ) : Option α :=
  let p := padPlan w h r
  if p.xOff ≤ x ∧ x < ratAdd p.xOff ((w : ℚ)) ∧ p.yOff ≤ y ∧ y < ratAdd p.yOff ((h : ℚ)) then
    src (ratSub x p.xOff) (ratSub y p.yOff)
  else none

/-- Embedding of the geometry of `resizeImage` (src/components/
ImageUploader.tsx, lines 36–52): scale so the longest side equals the
target, rounding both canvas dimensions. -/
def resizeDims (w h t : ℕ) : ℤ × ℤ :=
  let ar : ℚ := ratDiv ((w : ℚ)) ((h : ℚ))
  if h < w then (jsRound ((t : ℚ)), jsRound (ratDiv ((t : ℚ)) ar))
  else (jsRound (ratMul ((t : ℚ)) ar), jsRound ((t : ℚ)))

/-- Embedding of the output-MIME selection of `resizeImage`
(src/components/ImageUploader.tsx, lines 54–56): JPEG exactly when the
input data URL starts with `data:image/jpeg`, otherwise PNG. -/
def resizeOutputMime (imageUrl : String) : String :=
  if leadsWith (String.data ("data:image/jpeg")) imageUrl.data then "image/jpeg"
  else "image/png"

/-- Modelled from the spec: the encoding-family classification behind
"re-encode preserving the original encoding family (lossy encoding stays
lossy, alpha-capable stays alpha-capable)".  The classification itself is
not in the source; it records that JPEG is lossy, that WebP as produced by
canvas re-encoding is a lossy family, and that PNG is lossless. -/
def specLossyFamily : String → Bool
  | "image/jpeg" => true
  | "image/webp" => true
  | _ => false

/-- Concatenation of strings concatenates the underlying character lists. -/
theorem sdata_append (s t : String) : (s ++ t).data = s.data ++ t.data := rfl

/-- A small constant pixel source used to instantiate transparency
statements at concrete points. -/
def someSrc : ℚ → ℚ → Option Unit := fun _ _ => some ()

/-- A reference image used by the concrete scenes below. -/
def img0 : ImageFile := { base64 := "AAAA", mimeType := "image/png" }

/-- A scene whose description is a single space: non-empty, hence truthy in
JavaScript, but blank after trimming. -/
def sc1 : SceneState :=
  { characters := [], additionalElements := [], sceneDescription := " ",
    sceneLocationImage := none, styleImage := none, aspectRatio := "16:9",
    artisticStyle := "photorealistic", lightingStyle := "studio lighting",
    cameraPerspective := "eye level view" }

/-- A character with an image but a whitespace-only name. -/
def cBlank : Character := { id := 1, name := "   ", image := some img0 }

/-- A scene containing only the blank-named, imaged character. -/
def sc3 : SceneState :=
  { characters := [cBlank], additionalElements := [], sceneDescription := "",
    sceneLocationImage := none, styleImage := none, aspectRatio := "16:9",
    artisticStyle := "photorealistic", lightingStyle := "studio lighting",
    cameraPerspective := "eye level view" }

/-- The scene-description marker fails against the lead clause, whatever
the artistic style. -/
theorem lead_not_scene_marker (a : String) :
    leadsWith (String.data ("The scene is:"))
      (("Generate a cinematic image in a " ++ a ++ " style.").data) = false := by
  rw [sdata_append, sdata_append, List.append_assoc]
  exact leadsWith_append_false _ _ _ (by decide)

/-- The scene-description marker fails against the composition clause. -/
theorem comp_not_scene_marker (c r : String) :
    leadsWith (String.data ("The scene is:"))
      (("Use a " ++ c ++ " with a " ++ r ++ " aspect ratio.").data) = false := by
  rw [sdata_append, sdata_append, sdata_append, sdata_append,
    List.append_assoc, List.append_assoc, List.append_assoc]
  exact leadsWith_append_false _ _ _ (by decide)

/-- The scene-description marker fails against the lighting clause: the two
strings diverge at their fifth character. -/
theorem light_not_scene_marker (l : String) :
    leadsWith (String.data ("The scene is:"))
      (("The lighting is " ++ l ++ ".").data) = false := by
  rw [sdata_append, sdata_append, List.append_assoc]
  exact leadsWith_append_false _ _ _ (by decide)

/-- A prefix test that fails against the head of a joined list (with any
continuation) fails against the joined string. -/
theorem leadsWith_joinParts_false (M : List Char) (sep x : String) (xs : List String)
    (hx : ∀ r, leadsWith M (x.data ++ r) = false) :
    leadsWith M ((joinParts sep (x :: xs)).data) = false := by
  cases xs with
  | nil =>
    have := hx []
    simpa [joinParts] using this
  | cons y ys =>
    show leadsWith M ((x ++ sep ++ joinParts sep (y :: ys)).data) = false
    rw [sdata_append, sdata_append, List.append_assoc]
    exact hx _

/-- The scene-description marker fails against the joined integration
instructions whenever they are non-empty: every non-empty sub-clause starts
with `Integrate` or `Use`. -/
theorem instr_not_scene_marker (s : SceneState) (h : integrationInstructions s ≠ "") :
    leadsWith (String.data ("The scene is:")) (integrationInstructions s).data = false := by
  rw [integrationInstructions] at h ⊢
  cases hF : ([characterIntegration s, elementIntegration s, locationIntegration s]).filter
      (fun p => p != "") with
  | nil => rw [hF] at h; simp [joinParts] at h
  | cons x xs =>
    have hxmem : x ∈ ([characterIntegration s, elementIntegration s,
        locationIntegration s]).filter (fun p => p != "") := by
      rw [hF]; exact List.mem_cons_self x xs
    have hxne : ¬(x = "") := by
      have := List.of_mem_filter hxmem
      simpa using this
    have hxin := List.mem_of_mem_filter hxmem
    refine leadsWith_joinParts_false _ _ _ _ ?_
    intro r
    rcases List.mem_cons.mp hxin with hx | hxin
    · by_cases hcn : characterNames s.characters = ""
      · exact absurd (by simp [hx, characterIntegration, hcn]) hxne
      · rw [hx]
        rw [show characterIntegration s
            = "Integrate the characters " ++ characterNames s.characters
              ++ " from their reference images." from by
          simp [characterIntegration, hcn]]
        rw [sdata_append, sdata_append, List.append_assoc, List.append_assoc]
        exact leadsWith_append_false _ _ _ (by decide)
    rcases List.mem_cons.mp hxin with hx | hxin
    · by_cases hen : characterNames s.additionalElements = ""
      · exact absurd (by simp [hx, elementIntegration, hen]) hxne
      · rw [hx]
        rw [show elementIntegration s
            = "Integrate the objects " ++ characterNames s.additionalElements
              ++ " from their reference images." from by
          simp [elementIntegration, hen]]
        rw [sdata_append, sdata_append, List.append_assoc, List.append_assoc]
        exact leadsWith_append_false _ _ _ (by decide)
    rcases List.mem_cons.mp hxin with hx | hxin
    · by_cases hli : s.sceneLocationImage.isSome
      · rw [hx]
        rw [show locationIntegration s
            = "Use the provided \"Scene Location\" image as the background environment."
            from by simp [locationIntegration, hli]]
        exact leadsWith_append_false _ _ _ (by decide)
      · exact absurd (by simp [hx, locationIntegration, hli]) hxne
    · simp at hxin

/-- C1 counterexample: the scene `sc1` has a whitespace-only (hence blank)
description, yet the composed prompt parts contain the scene clause
`The scene is:  .` — the inclusion check is plain truthiness, not a trimmed
check. -/
theorem blank_scene_clause_cex :
    jsTrim sc1.sceneDescription = "" ∧ ("The scene is:  .") ∈ promptParts sc1 := by
  decide

/-- C1 (amended): the scene-description clause is governed by emptiness of
the raw description: when the description is the empty string no composed
prompt part begins with `The scene is:`, and when it is non-empty the
clause `The scene is: <description>.` is one of the prompt parts.
Whitespace-only descriptions therefore do produce a clause. -/
theorem scene_clause_iff_nonempty (s : SceneState) :
    (s.sceneDescription = "" →
      ∀ p ∈ promptParts s,
        leadsWith (String.data ("The scene is:")) p.data = false) ∧
    (s.sceneDescription ≠ "" →
      ("The scene is: " ++ s.sceneDescription ++ ".") ∈ promptParts s) := by
  constructor
  · intro hd p hp
    have hsp : scenePart s.sceneDescription = [] := by simp [scenePart, hd]
    rw [promptParts, hsp] at hp
    simp only [List.append_nil, List.nil_append, List.mem_append,
      List.mem_singleton] at hp
    rcases hp with ((((hp | hp) | hp) | hp) | hp) | hp
    · subst hp; exact lead_not_scene_marker _
    · subst hp; exact comp_not_scene_marker _ _
    · subst hp; exact light_not_scene_marker _
    · by_cases hii : integrationInstructions s = ""
      · simp [hii] at hp
      · simp only [if_neg hii, List.mem_singleton] at hp
        subst hp
        exact instr_not_scene_marker s hii
    · by_cases hsi : s.styleImage.isSome
      · simp only [if_pos hsi, List.mem_singleton] at hp
        subst hp
        decide
      · simp [hsi] at hp
    · by_cases hci : (hasCharacterImage s.characters
          || hasCharacterImage s.additionalElements) = true
      · simp only [if_pos hci, List.mem_singleton] at hp
        subst hp
        decide
      · simp [hci] at hp
  · intro hd
    simp [promptParts, scenePart, hd]

/-- C1 witness: a concrete non-empty description puts its clause among the
prompt parts. -/
theorem scene_clause_iff_nonempty_witness :
    ("The scene is:  .") ∈ promptParts sc1 :=
  (scene_clause_iff_nonempty sc1).2 (by decide)

/-- C4: a character entry with a non-null image but a blank (whitespace-
only) trimmed name triggers the fixed transparency-instruction clause in
the composed prompt parts, yet is invisible to the integration name list:
the character-names string over the full character sequence equals the one
over the sequence with that entry removed (which, by definition of
`characterNames`, lists exactly the imaged, non-blank-named entries in
sequence order, each wrapped in parentheses and comma-separated). -/
theorem imaged_blank_name_asymmetry (s : SceneState) (c : Character)
    (l₁ l₂ : List Character) (hsplit : s.characters = l₁ ++ c :: l₂)
    (himg : c.image.isSome = true) (hname : jsTrim c.name = "") :
    criticalClause ∈ promptParts s ∧
    characterNames s.characters = characterNames (l₁ ++ l₂) := by
  constructor
  · have hhas : hasCharacterImage s.characters = true := by
      rw [hsplit, hasCharacterImage]
      simp only [List.any_append, List.any_cons, himg, Bool.true_or,
        Bool.or_true]
    have hcond : (hasCharacterImage s.characters
        || hasCharacterImage s.additionalElements) = true := by
      rw [hhas, Bool.true_or]
    rw [promptParts, if_pos hcond]
    simp
  · rw [hsplit, characterNames, characterNames]
    rw [List.filter_append, List.filter_append, List.filter_cons]
    simp [himg, hname]

/-- C4 witness: the concrete scene `sc3` holds exactly one character, with
an image and the name `"   "`; the transparency clause is among the prompt
parts while the character-names string is empty. -/
theorem imaged_blank_name_asymmetry_witness :
    criticalClause ∈ promptParts sc3 ∧ characterNames sc3.characters = "" := by
  have h := imaged_blank_name_asymmetry sc3 cBlank [] [] rfl (by decide) (by decide)
  exact ⟨h.1, h.2.trans (by decide)⟩

/-- C2: at startup, a stored history payload that is valid JSON but not an
array, and likewise one that does not parse at all, both leave the
in-memory history empty and end with the stored key deleted.  The non-array
case is left untouched by the load effect itself, and the unparseable case
is removed by its catch block; in both cases the save effect, which runs on
mount with the (still empty) history, removes the key, so the final stored
state is empty either way. -/
theorem corrupt_history_startup :
    mountStartup (some (some ParsedJson.nonArray)) = ([], none) ∧
    mountStartup (some none) = ([], none) := by
  decide

/-- C9: a stored payload that parses to an array longer than the cap is
truncated to its first `MAX_HISTORY_ITEMS` entries before it becomes the
in-memory history, whose length is then exactly the cap. -/
theorem history_load_truncates (l : List HistoryItem)
    (h : MAX_HISTORY_ITEMS < l.length) :
    (loadHistoryEffect (some (some (ParsedJson.arr l)))).1 = l.take MAX_HISTORY_ITEMS ∧
    (loadHistoryEffect (some (some (ParsedJson.arr l)))).1.length = MAX_HISTORY_ITEMS := by
  refine ⟨rfl, ?_⟩
  simp only [loadHistoryEffect, List.length_take]
  omega

/-- A pairwise newest-first list has its minimum timestamp at the last
position. -/
theorem pairwise_lexLe_getLast (l : List HistoryItem)
    (hs : l.Pairwise (fun a b => lexLe b.createdAt.data a.createdAt.data = true)) :
    ∀ last ∈ l.getLast?, ∀ x ∈ l, lexLe last.createdAt.data x.createdAt.data = true := by
  induction l with
  | nil => intro last hlast; simp at hlast
  | cons a as ih =>
    rcases List.pairwise_cons.mp hs with ⟨ha, hs'⟩
    cases as with
    | nil =>
      intro last hlast x hx
      simp only [List.getLast?_singleton, Option.mem_def, Option.some_inj] at hlast
      simp only [List.mem_singleton] at hx
      subst hlast; subst hx
      exact lexLe_refl _
    | cons b bs =>
      intro last hlast x hx
      rw [List.getLast?_cons_cons] at hlast
      have hlmem : last ∈ b :: bs := by
        rcases List.mem_getLast?_eq_getLast hlast with ⟨hne, heq⟩
        subst heq
        exact List.getLast_mem hne
      rcases List.mem_cons.mp hx with hx | hx
      · subst hx
        exact ha last hlmem
      · exact ih hs' last hlast x hx

/-- C8: appending to the history always leaves at most `MAX_HISTORY_ITEMS`
items; appending to a full (10-item) history prepends the new item and
evicts exactly the last entry, leaving 10; and in a newest-first
(pairwise non-increasing createdAt) history that last entry has the lowest
createdAt of all entries. -/
theorem history_append_bound (item : HistoryItem) (prev : List HistoryItem) :
    (addToHistory item prev).length ≤ MAX_HISTORY_ITEMS ∧
    (prev.length = MAX_HISTORY_ITEMS →
      addToHistory item prev = item :: prev.dropLast ∧
      (addToHistory item prev).length = MAX_HISTORY_ITEMS) ∧
    (prev.Pairwise (fun a b => lexLe b.createdAt.data a.createdAt.data = true) →
      ∀ last ∈ prev.getLast?, ∀ x ∈ prev,
        lexLe last.createdAt.data x.createdAt.data = true) := by
  refine ⟨?_, ?_, fun hs => pairwise_lexLe_getLast prev hs⟩
  · simp only [addToHistory, List.length_take]
    omega
  · intro hlen
    have hdrop : prev.dropLast = prev.take 9 := by
      rw [List.dropLast_eq_take, hlen]
      rfl
    constructor
    · rw [addToHistory, MAX_HISTORY_ITEMS, List.take_succ_cons, hdrop]
    · simp only [addToHistory, List.length_take, List.length_cons, hlen]
      rfl

/-- One stored history record for the concrete witnesses, carrying its
day-of-month as id and timestamp suffix. -/
def mkHist (k : String) : HistoryItem :=
  { id := "gen-" ++ k, image := img0, prompt := "p", createdAt := "2024-01-" ++ k }

/-- A full history of ten records in newest-first order. -/
def hist10 : List HistoryItem :=
  [mkHist ("30"), mkHist ("29"), mkHist ("28"), mkHist ("27"), mkHist ("26"),
   mkHist ("25"), mkHist ("24"), mkHist ("23"), mkHist ("22"), mkHist ("21")]

/-- An eleven-record stored history used to witness load truncation. -/
def hist11 : List HistoryItem := mkHist ("31") :: hist10

/-- C9 witness: loading a stored 11-item array yields exactly ten items. -/
theorem history_load_truncates_witness :
    (loadHistoryEffect (some (some (ParsedJson.arr hist11)))).1.length = MAX_HISTORY_ITEMS :=
  (history_load_truncates hist11 (by decide)).2

/-- C8 witness: appending an eleventh item to the full `hist10` prepends it
and evicts exactly the last (oldest) record, and that record's createdAt is
the minimum of the list. -/
theorem history_append_bound_witness :
    addToHistory (mkHist ("31")) hist10 = mkHist ("31") :: hist10.dropLast ∧
    lexLe (mkHist ("21")).createdAt.data (mkHist ("30")).createdAt.data = true := by
  have h := history_append_bound (mkHist ("31")) hist10
  exact ⟨(h.2.1 (by decide)).1,
    h.2.2 (by decide) (mkHist ("21")) (by decide) (mkHist ("30")) (by decide)⟩

/-- C3 counterexample: the two-part string `a:b` is malformed (its parts
are not numeric), yet the parser returns NaN rather than the 16/9 fallback:
`parseFloat` yields NaN for both parts, NaN never compares equal to zero,
and NaN/NaN is NaN. -/
theorem parse_ratio_nan_cex :
    parseAspectRatio ("a:b") = JsNumber.nan ∧
    parseAspectRatio ("a:b") ≠ JsNumber.fin (16 / 9) := by
  constructor
  · decide
  · have h : parseAspectRatio ("a:b") = JsNumber.nan := by decide
    rw [h]
    intro hc
    exact JsNumber.noConfusion hc

/-- C3 (amended): the parser falls back to 16/9 exactly in the two guarded
cases — when splitting on `:` does not give two parts, and when the parsed
denominator equals zero.  It never raises an error (it is a total
function), but a two-part string with a non-numeric part yields NaN, not
the fallback. -/
theorem parse_ratio_fallback (s : String) :
    ((splitCh ':' s.data).length ≠ 2 → parseAspectRatio s = JsNumber.fin (16 / 9)) ∧
    (∀ a b, splitCh ':' s.data = [a, b] → jsParseFloat b = JsNumber.fin 0 →
      parseAspectRatio s = JsNumber.fin (16 / 9)) := by
  constructor
  · intro h
    rw [← fallback_ratio_eq]
    simp only [parseAspectRatio]
    rw [if_pos h]
  · intro a b hsplit hden
    rw [← fallback_ratio_eq]
    simp [parseAspectRatio, hsplit, hden]

/-- C3 witness: a string with no colon, and one with a zero denominator,
both hit the fallback. -/
theorem parse_ratio_fallback_witness :
    parseAspectRatio ("abc") = JsNumber.fin (16 / 9) ∧
    parseAspectRatio ("1:0") = JsNumber.fin (16 / 9) := by
  refine ⟨(parse_ratio_fallback ("abc")).1 (by decide),
    (parse_ratio_fallback ("1:0")).2 (['1']) (['0']) (by decide) (by decide)⟩

/-- C7 counterexample: a lossy-family input (WebP) is re-encoded as PNG,
so the original encoding family is not preserved for every input MIME
type — only the JPEG prefix is recognised. -/
theorem resize_mime_family_cex :
    specLossyFamily ("image/webp") = true ∧
    resizeOutputMime ("data:image/webp;base64,AAAA") = "image/png" ∧
    specLossyFamily ("image/png") = false := by
  decide

/-- C7 (amended): the re-encode MIME of `resizeImage` is `image/jpeg`
exactly when the input data URL starts with `data:image/jpeg`, and
`image/png` otherwise; in particular the encoding family is preserved for
JPEG and PNG inputs (for any payload), but not for other types. -/
theorem resize_mime_selection (b64 : String) :
    resizeOutputMime ("data:image/jpeg;base64," ++ b64) = "image/jpeg" ∧
    resizeOutputMime ("data:image/png;base64," ++ b64) = "image/png" := by
  constructor
  · have ht : leadsWith (String.data ("data:image/jpeg"))
        (("data:image/jpeg;base64," ++ b64).data) = true := by
      rw [sdata_append,
        show String.data ("data:image/jpeg;base64,")
            = String.data ("data:image/jpeg") ++ String.data (";base64,") from by decide,
        List.append_assoc]
      exact leadsWith_append_self _ _
    rw [resizeOutputMime, if_pos ht]
  · have hf : leadsWith (String.data ("data:image/jpeg"))
        (("data:image/png;base64," ++ b64).data) = false := by
      rw [sdata_append]
      exact leadsWith_append_false _ _ _ (by decide)
    have hfn : ¬(leadsWith (String.data ("data:image/jpeg"))
        (("data:image/png;base64," ++ b64).data) = true) := by
      rw [hf]
      exact Bool.false_ne_true
    rw [resizeOutputMime, if_neg hfn]

/-- C6: the resize-to-longest-side geometry: when the width exceeds the
height the new width is exactly the target and the new height is the
rounded quotient of the target by the aspect ratio; otherwise the new
height is exactly the target and the new width is the rounded product. -/
theorem resize_geometry (w h t : ℕ) (hh : 0 < h) (ht : 0 < t) :
    resizeDims w h t =
      if h < w then ((t : ℤ), jsRound ((t : ℚ) / ((w : ℚ) / (h : ℚ))))
      else (jsRound ((t : ℚ) * ((w : ℚ) / (h : ℚ))), (t : ℤ)) := by
  simp only [resizeDims, ratDiv_eq, ratMul_eq]
  by_cases hw : h < w
  · rw [if_pos hw, if_pos hw, jsRound_natCast]
  · rw [if_neg hw, if_neg hw, jsRound_natCast]

/-- C6 witness: a 1000 × 500 source resized to a longest side of 250
yields exactly 250 × 125. -/
theorem resize_geometry_witness :
    resizeDims 1000 500 250 = (250, 125) := by
  have h := resize_geometry 1000 500 250 (by norm_num) (by norm_num)
  rw [h, if_pos (by norm_num)]
  norm_num [jsRound_eq, Prod.ext_iff]

/-- C5: the pad-to-aspect-ratio geometry for a parsed finite target ratio:
when the source is strictly wider than the target the canvas keeps the
source width and takes the rounded height w/r, otherwise it keeps the
source height and takes the rounded width h·r; the centering offsets are
half the differences between canvas and source dimensions; and every
canvas point outside the centred source rectangle is transparent. -/
theorem pad_geometry (w h : ℕ) (r : ℚ) (rstr : String)
    (hparse : parseAspectRatio rstr = JsNumber.fin r) (hh : 0 < h) (hr : 0 < r) :
    (((w : ℚ) / (h : ℚ) > r →
        (padPlan w h r).canvasW = (w : ℤ) ∧
        (padPlan w h r).canvasH = jsRound ((w : ℚ) / r)) ∧
      (¬((w : ℚ) / (h : ℚ) > r) →
        (padPlan w h r).canvasH = (h : ℤ) ∧
        (padPlan w h r).canvasW = jsRound ((h : ℚ) * r))) ∧
    (padPlan w h r).xOff = (((padPlan w h r).canvasW : ℚ) - (w : ℚ)) / 2 ∧
    (padPlan w h r).yOff = (((padPlan w h r).canvasH : ℚ) - (h : ℚ)) / 2 ∧
    (∀ (src : ℚ → ℚ → Option Unit) (x y : ℚ),
      (x < (padPlan w h r).xOff ∨ (padPlan w h r).xOff + (w : ℚ) ≤ x ∨
        y < (padPlan w h r).yOff ∨ (padPlan w h r).yOff + (h : ℚ) ≤ y) →
      padPixel w h r src x y = none) := by
  have hW : (padPlan w h r).canvasW
      = jsRound (if (w : ℚ) / (h : ℚ) > r then (w : ℚ) else (h : ℚ) * r) := by
    simp only [padPlan, ratDiv_eq, ratMul_eq]
  have hH : (padPlan w h r).canvasH
      = jsRound (if (w : ℚ) / (h : ℚ) > r then (w : ℚ) / r else (h : ℚ)) := by
    simp only [padPlan, ratDiv_eq, ratMul_eq]
  have hxo : (padPlan w h r).xOff
      = Rat.divInt ((padPlan w h r).canvasW - (w : ℤ)) 2 := rfl
  have hyo : (padPlan w h r).yOff
      = Rat.divInt ((padPlan w h r).canvasH - (h : ℤ)) 2 := rfl
  refine ⟨⟨?_, ?_⟩, ?_, ?_, ?_⟩
  · intro hgt
    rw [hW, hH, if_pos hgt, if_pos hgt, jsRound_natCast]
    exact ⟨rfl, rfl⟩
  · intro hle
    rw [hW, hH, if_neg hle, if_neg hle, jsRound_natCast]
    exact ⟨rfl, rfl⟩
  · rw [hxo, Rat.divInt_eq_div]
    push_cast
    ring
  · rw [hyo, Rat.divInt_eq_div]
    push_cast
    ring
  · intro src x y hout
    have hcond : ¬((padPlan w h r).xOff ≤ x ∧ x < ratAdd (padPlan w h r).xOff ((w : ℚ)) ∧
        (padPlan w h r).yOff ≤ y ∧ y < ratAdd (padPlan w h r).yOff ((h : ℚ))) := by
      rw [ratAdd_eq, ratAdd_eq]
      rintro ⟨h1, h2, h3, h4⟩
      rcases hout with ho | ho | ho | ho <;> linarith
    simp only [padPixel]
    rw [if_neg hcond]

/-- C5 witness: ratio `1:1` parses to 1; a 200 × 100 source padded to it
gets a 200 × 200 canvas, x-offset 0 and y-offset 50, and a point in the
top margin is transparent. -/
theorem pad_geometry_witness :
    parseAspectRatio ("1:1") = JsNumber.fin 1 ∧
    padPlan 200 100 1 = { canvasW := 200, canvasH := 200, xOff := 0, yOff := 50 } ∧
    padPixel 200 100 1 someSrc 100 25 = none := by
  have h := pad_geometry 200 100 1 ("1:1") (by decide) (by norm_num) (by norm_num)
  refine ⟨by decide, by decide, h.2.2.2 someSrc 100 25 ?_⟩
  right; right; left
  rw [show (padPlan 200 100 1).yOff = 50 from by decide]
  norm_num

/-- C10: when the source aspect ratio equals the target ratio exactly, the
pad transform is geometrically the identity: the equal-ratio case takes
the match-height branch, the canvas keeps the source dimensions, both
offsets are zero, and every canvas point inside the source rectangle reads
the source pixel (no transparent padding is added). -/
theorem pad_identity_on_match (w h : ℕ) (r : ℚ) (hh : 0 < h)
    (hmatch : (w : ℚ) / (h : ℚ) = r) :
    padPlan w h r = { canvasW := (w : ℤ), canvasH := (h : ℤ), xOff := 0, yOff := 0 } ∧
    (∀ (src : ℚ → ℚ → Option Unit) (x y : ℚ),
      0 ≤ x → x < (w : ℚ) → 0 ≤ y → y < (h : ℚ) →
      padPixel w h r src x y = src x y) := by
  have hne : ((h : ℚ)) ≠ 0 := Nat.cast_ne_zero.mpr hh.ne'
  have hngt : ¬(ratDiv ((w : ℚ)) ((h : ℚ)) > r) := by
    rw [ratDiv_eq, hmatch]
    exact lt_irrefl r
  have hmul : ratMul ((h : ℚ)) r = (w : ℚ) := by
    rw [ratMul_eq, ← hmatch]
    field_simp
  have hplan : padPlan w h r
      = { canvasW := (w : ℤ), canvasH := (h : ℤ), xOff := 0, yOff := 0 } := by
    simp only [padPlan, if_neg hngt, hmul, jsRound_natCast, sub_self,
      PadPlan.mk.injEq]
    norm_num [Rat.divInt_eq_div]
  refine ⟨hplan, ?_⟩
  intro src x y h0x hxw h0y hyh
  simp only [padPixel, hplan]
  rw [if_pos ⟨h0x, by rw [ratAdd_eq]; linarith, h0y, by rw [ratAdd_eq]; linarith⟩]
  rw [ratSub_eq, ratSub_eq, sub_zero, sub_zero]

/-- C10 witness: a 200 × 200 source with ratio 1 keeps its dimensions,
zero offsets, and an interior point reads the source. -/
theorem pad_identity_on_match_witness :
    padPlan 200 200 1 = { canvasW := 200, canvasH := 200, xOff := 0, yOff := 0 } ∧
    padPixel 200 200 1 someSrc 5 7 = someSrc 5 7 := by
  have h := pad_identity_on_match 200 200 1 (by norm_num) (by norm_num)
  exact ⟨h.1, h.2 someSrc 5 7 (by norm_num) (by norm_num) (by norm_num) (by norm_num)⟩

end Boukiane
